import Mathlib

set_option autoImplicit false

/-! Shallow embedding of the queue + dispatcher core of `src/index.js`:
the persisted queue store (`readDb`/`writeDb` over `queue.json`), the
request handlers (`POST /api/send`, `POST /api/pair`,
`POST /api/clear-queue`) and the dispatch worker (`processQueueOnce`).

Persistence is modelled purely: every handler is a function from the
persisted image (`Db`) to the new image; timestamps
(`new Date().toISOString()`) and generated uuids are injected as opaque
string parameters; the Puppeteer session is abstracted to exactly the
outcomes the worker observes (browser launch ok, the logged-in probe, a
per-delivery result). -/

/-- A message record, as created by the `POST /api/send` handler
(src/index.js lines 44-52).  `none` models both a JS `null` field and an
absent property: `sentAt` / `attemptedAt` are absent on a fresh record and
set only by the worker write-backs. -/
structure Msg where
  id : String
  toThreadId : String
  text : String
  senderName : Option String
  createdAt : String
  status : String
  lastError : Option String
  sentAt : Option String
  attemptedAt : Option String
  deriving Repr, DecidableEq

/-- The persisted image of `queue.json`:
`\x7b messages: [...], pairings: \x7b code: \x7bcreatedAt\x7d \x7d \x7d`.
The JS `pairings` object is modelled as an insertion-ordered association
list from pairing code to its `createdAt` timestamp. -/
structure Db where
  messages : List Msg
  pairings : List (String × String)
  deriving Repr, DecidableEq

/-- The default state `\x7b messages: [], pairings: \x7b\x7d \x7d`
(src/index.js line 22). -/
def emptyDb : Db := ⟨[], []⟩

/-- Outcome of `fs.readFileSync` + `JSON.parse` on the persisted file:
`absent` (file missing, `readFileSync` throws), `unreadable` (content does
not parse, `JSON.parse` throws), or a successfully parsed state. -/
inductive ReadOutcome where
  | absent
  | unreadable
  | ok (db : Db)
  deriving Repr, DecidableEq

/-- `readDb` (src/index.js lines 18-24): try to read and parse the file,
and on any exception return the empty default state. -/
def readDb : ReadOutcome → Db
  | .absent => emptyDb
  | .unreadable => emptyDb
  | .ok db => db

/-- The record built by the `POST /api/send` handler (src/index.js lines
44-52).  `senderName: senderName || null` collapses a JS-falsy (empty)
sender name to `null`. -/
def mkQueuedMsg (id toThreadId text : String) (senderName : Option String) (now : String) : Msg :=
  { id := id, toThreadId := toThreadId, text := text,
    senderName := senderName.bind (fun s => if s = "" then none else some s),
    createdAt := now, status := "queued", lastError := none,
    sentAt := none, attemptedAt := none }

/-- The `POST /api/send` handler (src/index.js lines 39-57).  The guard
`if (!toThreadId || !text) return res.status(400)...` rejects exactly the
empty strings (for a JS string, `!s` holds iff `s` is empty) before the
store is even read; `Except.error` models that synchronous 400.  On the
valid path the record is appended and the fresh id is echoed back. -/
def submit (db : Db) (id toThreadId text : String) (senderName : Option String) (now : String) :
    Except String (Db × String) :=
  if toThreadId = "" ∨ text = "" then
    Except.error "toThreadId and text required"
  else
    Except.ok
      ({ db with messages := db.messages ++ [mkQueuedMsg id toThreadId text senderName now] },
        (mkQueuedMsg id toThreadId text senderName now).id)

/-- The `POST /api/clear-queue` handler (src/index.js lines 75-80):
`db.messages = []` and write back; `db.pairings` is untouched. -/
def clearQueue (db : Db) : Db := { db with messages := [] }

/-- JS object assignment `db.pairings[code] = \x7b createdAt: now \x7d`
(src/index.js line 69): if the key exists its value is replaced in place
(insertion order kept), otherwise the entry is appended. -/
def setPairing : List (String × String) → String → String → List (String × String)
  | [], code, now => [(code, now)]
  | (c, t) :: rest, code, now =>
    if c = code then (code, now) :: rest else (c, t) :: setPairing rest code now

/-- The `POST /api/pair` handler (src/index.js lines 66-72) after the code
has been drawn: record `\x7b createdAt \x7d` under the code. -/
def addPairing (db : Db) (code now : String) : Db :=
  { db with pairings := setPairing db.pairings code now }

/-- Reading `db.pairings[code].createdAt` from the persisted image. -/
def lookupPairing (db : Db) (code : String) : Option String :=
  (db.pairings.find? (fun p => p.1 == code)).map (fun p => p.2)

/-- The digit alphabet of JS `Number.prototype.toString(36)`:
`0123456789abcdefghijklmnopqrstuvwxyz`. -/
def base36Digit (d : Fin 36) : Char :=
  if d.val < 10 then Char.ofNat (48 + d.val) else Char.ofNat (87 + d.val)

/-- `x.toString(36)` for `x = Math.random() ∈ [0,1)`, abstracted over the
base-36 fractional expansion that `toString` prints (trailing zeros
already trimmed, as JS does): `0` itself prints as `"0"`, any other value
prints as `"0."` followed by at least one fractional digit.  The
floating-point value itself is abstracted to its printed digit list. -/
def jsToString36Chars (digits : List (Fin 36)) : List Char :=
  if digits.isEmpty then ['0'] else '0' :: '.' :: digits.map base36Digit

/-- JS `String.prototype.slice(a, b)` (for `0 ≤ a ≤ b`) on a char list. -/
def jsSlice (a b : Nat) (cs : List Char) : List Char := (cs.drop a).take (b - a)

/-- The pairing code of src/index.js line 67:
`Math.random().toString(36).slice(2, 8).toUpperCase()`, as a function of
the random value's printed base-36 fractional expansion. -/
def pairingCodeOf (digits : List (Fin 36)) : String :=
  String.mk ((jsSlice 2 8 (jsToString36Chars digits)).map Char.toUpper)

/-- One delivery attempt's outcome: `sendMessageToThread` either resolves
(`true`) or throws with an error message (composer not found, navigation
timeout, ...). -/
inductive DeliverOutcome where
  | ok
  | err (msg : String)
  deriving Repr, DecidableEq

/-- The worker's view of the Puppeteer session during one cycle:
whether `ensureBrowser()` succeeds, what the logged-in probe
(src/index.js lines 166-169, with its `.catch(() => false)`) reports, and
the outcome of `sendMessageToThread(toThreadId, text)` per payload. -/
structure SessionModel where
  browserOk : Bool
  loggedIn : Bool
  deliver : String → String → DeliverOutcome

/-- `db2.messages.find(m => m.id === id)` (src/index.js lines 181, 190). -/
def findMsg (ms : List Msg) (id : String) : Option Msg :=
  ms.find? (fun m => m.id == id)

/-- Mutating the record `find` located: in JS the found object itself is
updated, i.e. exactly the first entry whose id matches. -/
def updateFirst (f : Msg → Msg) (id : String) : List Msg → List Msg
  | [] => []
  | m :: rest => if m.id = id then f m :: rest else m :: updateFirst f id rest

/-- The success write-back mutation (src/index.js lines 183-184). -/
def markSent (now : String) (m : Msg) : Msg :=
  { m with status := "sent", sentAt := some now }

/-- The failure write-back mutation (src/index.js lines 192-194). -/
def markFailed (errText now : String) (m : Msg) : Msg :=
  { m with status := "failed", lastError := some errText, attemptedAt := some now }

/-- Success write-back (src/index.js lines 180-186): re-read the store,
locate the record by id; if present mark it sent and write (`true`),
otherwise skip the write entirely (`false`).  The argument `db2` is the
freshly re-read state. -/
def writeBackSent (db2 : Db) (id now : String) : Db × Bool :=
  match findMsg db2.messages id with
  | some _ => ({ db2 with messages := updateFirst (markSent now) id db2.messages }, true)
  | none => (db2, false)

/-- Failure write-back (src/index.js lines 188-196), analogous. -/
def writeBackFailed (db2 : Db) (id errText now : String) : Db × Bool :=
  match findMsg db2.messages id with
  | some _ => ({ db2 with messages := updateFirst (markFailed errText now) id db2.messages }, true)
  | none => (db2, false)

/-- The worker's `for (const msg of queued)` loop (src/index.js lines
176-198), run in isolation (no interleaved request-surface write, and
store I/O succeeds): each write-back's re-read then sees the accumulated
state.  Also returns the ids for which a delivery was attempted, in
order. -/
def deliverLoop (s : SessionModel) (now : String) : List Msg → Db → Db × List String
  | [], db => (db, [])
  | msg :: rest, db =>
    let db2 :=
      match s.deliver msg.toThreadId msg.text with
      | .ok => (writeBackSent db msg.id now).1
      | .err e => (writeBackFailed db msg.id e now).1
    let r := deliverLoop s now rest db2
    (r.1, msg.id :: r.2)

/-- One dispatch cycle, `processQueueOnce` (src/index.js lines 158-202):
read the store, take the queued subset, return early when it is empty;
a thrown `ensureBrowser` lands in the outer catch (line 199) with nothing
written; a false logged-in probe aborts the cycle (lines 171-174); else
drive every queued message through the loop.  Returns the final persisted
image and the attempted ids. -/
def processQueueOnce (s : SessionModel) (now : String) (db : Db) : Db × List String :=
  if (db.messages.filter (fun m => m.status == "queued")).isEmpty then (db, [])
  else if !s.browserOk then (db, [])
  else if !s.loggedIn then (db, [])
  else deliverLoop s now (db.messages.filter (fun m => m.status == "queued")) db

/-- The timestamp invariant of the spec (§3): a `queued` record has
neither `sentAt` nor `attemptedAt`; once the status has left `queued`,
exactly one of the two is populated. -/
def tsInv (m : Msg) : Prop :=
  if m.status = "queued" then m.sentAt = none ∧ m.attemptedAt = none
  else (m.sentAt.isSome ∧ m.attemptedAt = none) ∨ (m.sentAt = none ∧ m.attemptedAt.isSome)

instance (m : Msg) : Decidable (tsInv m) := by
  unfold tsInv; infer_instance

/-! Helper lemmas about the write-back primitives and the delivery loop. -/

theorem forall₂_comp {α β γ : Type} {R : α → β → Prop} {S : β → γ → Prop} :
    ∀ {l1 : List α} {l2 : List β} {l3 : List γ}, List.Forall₂ R l1 l2 → List.Forall₂ S l2 l3 →
      List.Forall₂ (fun a c => ∃ b, R a b ∧ S b c) l1 l3 := by
  intro l1 l2 l3 h1
  induction h1 generalizing l3 with
  | nil => intro h2; cases h2; exact List.Forall₂.nil
  | cons hab htl ih =>
    intro h2
    cases h2 with
    | cons hbc htl2 => exact List.Forall₂.cons ⟨_, hab, hbc⟩ (ih htl2)

theorem forall₂_imp_mem {α β : Type} {R S : α → β → Prop} :
    ∀ {l1 : List α} {l2 : List β}, List.Forall₂ R l1 l2 →
      (∀ a ∈ l1, ∀ b, R a b → S a b) → List.Forall₂ S l1 l2 := by
  intro l1 l2 h
  induction h with
  | nil => intro _; exact List.Forall₂.nil
  | cons hab htl ih =>
    intro hmem
    exact List.Forall₂.cons (hmem _ (List.mem_cons_self _ _) _ hab)
      (ih fun a ha b hr => hmem a (List.mem_cons_of_mem _ ha) b hr)

theorem forall₂_mem_right {α β : Type} {R : α → β → Prop} :
    ∀ {l1 : List α} {l2 : List β}, List.Forall₂ R l1 l2 →
      ∀ {b : β}, b ∈ l2 → ∃ a ∈ l1, R a b := by
  intro l1 l2 h
  induction h with
  | nil => intro b hb; cases hb
  | cons hab htl ih =>
    intro b hb
    rcases List.mem_cons.mp hb with hb | hb
    · exact ⟨_, List.mem_cons_self _ _, hb ▸ hab⟩
    · obtain ⟨a, ha, har⟩ := ih hb
      exact ⟨a, List.mem_cons_of_mem _ ha, har⟩

theorem updateFirst_map_id (f : Msg → Msg) (hf : ∀ m, (f m).id = m.id) (id : String) :
    ∀ ms : List Msg, (updateFirst f id ms).map Msg.id = ms.map Msg.id := by
  intro ms
  induction ms with
  | nil => rfl
  | cons m rest ih =>
    unfold updateFirst
    by_cases h : m.id = id
    · rw [if_pos h]; simp [hf]
    · rw [if_neg h]; simp [ih]

theorem updateFirst_forall₂ (f : Msg → Msg) (id : String) :
    ∀ ms : List Msg, (ms.map Msg.id).Nodup →
      List.Forall₂ (fun a b => if a.id = id then b = f a else b = a) ms (updateFirst f id ms) := by
  intro ms
  induction ms with
  | nil => intro _; exact List.Forall₂.nil
  | cons m rest ih =>
    intro hnd
    have hnd2 : m.id ∉ rest.map Msg.id ∧ (rest.map Msg.id).Nodup := by
      simpa [List.nodup_cons] using hnd
    unfold updateFirst
    by_cases h : m.id = id
    · rw [if_pos h]
      refine List.Forall₂.cons (by rw [if_pos h]) ?_
      refine List.forall₂_same.mpr ?_
      intro a ha
      have hane : ¬ a.id = id := by
        intro hc
        exact hnd2.1 (by rw [h, ← hc]; exact List.mem_map_of_mem Msg.id ha)
      rw [if_neg hane]
    · rw [if_neg h]
      exact List.Forall₂.cons (by rw [if_neg h]) (ih hnd2.2)

theorem mem_updateFirst_of_ne (f : Msg → Msg) (id : String) :
    ∀ ms : List Msg, ∀ {a : Msg}, a ∈ ms → a.id ≠ id → a ∈ updateFirst f id ms := by
  intro ms
  induction ms with
  | nil => intro a ha _; cases ha
  | cons m rest ih =>
    intro a ha hane
    unfold updateFirst
    by_cases h : m.id = id
    · rw [if_pos h]
      rcases List.mem_cons.mp ha with ha | ha
      · exact absurd (ha ▸ h) hane
      · exact List.mem_cons_of_mem _ ha
    · rw [if_neg h]
      rcases List.mem_cons.mp ha with ha | ha
      · exact ha ▸ List.mem_cons_self _ _
      · exact List.mem_cons_of_mem _ (ih ha hane)

theorem findMsg_eq_of_nodup :
    ∀ ms : List Msg, (ms.map Msg.id).Nodup → ∀ {q : Msg}, q ∈ ms → findMsg ms q.id = some q := by
  intro ms
  induction ms with
  | nil => intro _ q hq; cases hq
  | cons m rest ih =>
    intro hnd q hq
    have hnd2 : m.id ∉ rest.map Msg.id ∧ (rest.map Msg.id).Nodup := by
      simpa [List.nodup_cons] using hnd
    unfold findMsg
    by_cases h : (m.id == q.id) = true
    · rw [List.find?_cons, h]
      have hmq : m = q := by
        rcases List.mem_cons.mp hq with hq | hq
        · exact hq.symm
        · exact absurd (by rw [eq_of_beq h]; exact List.mem_map_of_mem Msg.id hq) hnd2.1
      rw [hmq]
    · rw [List.find?_cons, Bool.of_not_eq_true h]
      have hqrest : q ∈ rest := by
        rcases List.mem_cons.mp hq with hq | hq
        · exact absurd (show (m.id == q.id) = true by rw [hq, beq_self_eq_true]) h
        · exact hq
      exact ih hnd2.2 hqrest

/-- The pointwise effect of one dispatch cycle's delivery loop on the
store: a record whose id is among the processed ids was rewritten by the
success or by the failure write-back; every other record is untouched. -/
def cycleWrite (now : String) (ids : List String) (a b : Msg) : Prop :=
  if a.id ∈ ids then b = markSent now a ∨ ∃ e, b = markFailed e now a
  else b = a

theorem deliverLoop_forall₂ (s : SessionModel) (now : String) :
    ∀ (work : List Msg) (db : Db),
      (db.messages.map Msg.id).Nodup →
      (work.map Msg.id).Nodup →
      (∀ q ∈ work, q ∈ db.messages) →
      List.Forall₂ (cycleWrite now (work.map Msg.id)) db.messages (deliverLoop s now work db).1.messages := by
  intro work
  induction work with
  | nil =>
    intro db _ _ _
    exact List.forall₂_same.mpr (fun a _ => by simp [cycleWrite, deliverLoop])
  | cons q rest ih =>
    intro db hnd hwnd hmem
    have hq : q ∈ db.messages := hmem q (List.mem_cons_self _ _)
    have hfind : findMsg db.messages q.id = some q := findMsg_eq_of_nodup _ hnd hq
    obtain ⟨f, hstep, hfid, hfshape⟩ :
        ∃ f : Msg → Msg,
          (deliverLoop s now (q :: rest) db).1 =
            (deliverLoop s now rest { db with messages := updateFirst f q.id db.messages }).1 ∧
          (∀ m, (f m).id = m.id) ∧
          (∀ m, f m = markSent now m ∨ ∃ e, f m = markFailed e now m) := by
      cases hdel : s.deliver q.toThreadId q.text with
      | ok =>
        refine ⟨markSent now, ?_, fun m => rfl, fun m => Or.inl rfl⟩
        simp [deliverLoop, hdel, writeBackSent, hfind]
      | err e =>
        refine ⟨markFailed e now, ?_, fun m => rfl, fun m => Or.inr ⟨e, rfl⟩⟩
        simp [deliverLoop, hdel, writeBackFailed, hfind]
    have hwnd2 : q.id ∉ rest.map Msg.id ∧ (rest.map Msg.id).Nodup := by
      simpa [List.nodup_cons] using hwnd
    have hmap2 : (updateFirst f q.id db.messages).map Msg.id = db.messages.map Msg.id :=
      updateFirst_map_id f hfid q.id db.messages
    have hnd2 : ((updateFirst f q.id db.messages).map Msg.id).Nodup := by
      rw [hmap2]; exact hnd
    have hmem2 : ∀ r ∈ rest, r ∈ updateFirst f q.id db.messages := by
      intro r hr
      have hrdb : r ∈ db.messages := hmem r (List.mem_cons_of_mem _ hr)
      have hrne : r.id ≠ q.id := fun hc => hwnd2.1 (hc ▸ List.mem_map_of_mem Msg.id hr)
      exact mem_updateFirst_of_ne f q.id db.messages hrdb hrne
    have hIH := ih { db with messages := updateFirst f q.id db.messages } hnd2 hwnd2.2 hmem2
    have hstep2 : List.Forall₂ (fun a b => if a.id = q.id then b = f a else b = a)
        db.messages (updateFirst f q.id db.messages) :=
      updateFirst_forall₂ f q.id db.messages hnd
    rw [hstep]
    refine forall₂_imp_mem (forall₂_comp hstep2 hIH) ?_
    intro a ha c hc
    obtain ⟨b, hb1, hb2⟩ := hc
    unfold cycleWrite at hb2 ⊢
    by_cases haq : a.id = q.id
    · rw [if_pos haq] at hb1
      subst hb1
      have hnotin : (f a).id ∉ rest.map Msg.id := by
        rw [hfid a, haq]; exact hwnd2.1
      rw [if_neg hnotin] at hb2
      subst hb2
      rw [if_pos (show a.id ∈ (q :: rest).map Msg.id by simp [haq])]
      exact hfshape a
    · rw [if_neg haq] at hb1
      rw [hb1] at hb2
      by_cases har : a.id ∈ rest.map Msg.id
      · rw [if_pos har] at hb2
        rw [if_pos (show a.id ∈ (q :: rest).map Msg.id by simp [har])]
        exact hb2
      · rw [if_neg har] at hb2
        rw [if_neg (show a.id ∉ (q :: rest).map Msg.id by simp [haq, har])]
        exact hb2

theorem cycle_noChange (s : SessionModel) (now : String) (db : Db)
    (h : s.browserOk = false ∨ s.loggedIn = false) :
    processQueueOnce s now db = (db, []) := by
  unfold processQueueOnce
  rcases h with h | h <;> simp [h]

theorem mem_id_unique {ms : List Msg} (hnd : (ms.map Msg.id).Nodup) {a b : Msg}
    (ha : a ∈ ms) (hb : b ∈ ms) (h : a.id = b.id) : a = b :=
  List.inj_on_of_nodup_map hnd ha hb h

theorem status_of_mem_qids {ms : List Msg} (hnd : (ms.map Msg.id).Nodup) {a : Msg}
    (ha : a ∈ ms)
    (h : a.id ∈ (ms.filter (fun m => m.status == "queued")).map Msg.id) :
    a.status = "queued" := by
  obtain ⟨w, hw, hwid⟩ := List.mem_map.mp h
  have hw2 := List.mem_filter.mp hw
  have hwa : w = a := mem_id_unique hnd hw2.1 ha hwid
  have hq := hw2.2
  rw [hwa] at hq
  exact eq_of_beq hq

theorem mem_qids_of_queued {ms : List Msg} {a : Msg} (ha : a ∈ ms) (h : a.status = "queued") :
    a.id ∈ (ms.filter (fun m => m.status == "queued")).map Msg.id :=
  List.mem_map_of_mem _ (List.mem_filter.mpr ⟨ha, by simp [h]⟩)

theorem cycle_forall₂ (s : SessionModel) (now : String) (db : Db)
    (hnd : (db.messages.map Msg.id).Nodup)
    (hb : s.browserOk = true) (hl : s.loggedIn = true) :
    List.Forall₂
      (cycleWrite now ((db.messages.filter (fun m => m.status == "queued")).map Msg.id))
      db.messages (processQueueOnce s now db).1.messages := by
  unfold processQueueOnce
  cases hemp : (db.messages.filter (fun m => m.status == "queued")).isEmpty with
  | true =>
    have hnil : db.messages.filter (fun m => m.status == "queued") = [] :=
      List.isEmpty_iff.mp hemp
    rw [if_pos rfl]
    refine List.forall₂_same.mpr ?_
    intro a _
    simp [cycleWrite, hnil]
  | false =>
    rw [if_neg (show ¬ false = true by simp)]
    rw [if_neg (show ¬ (!s.browserOk) = true by simp [hb])]
    rw [if_neg (show ¬ (!s.loggedIn) = true by simp [hl])]
    exact deliverLoop_forall₂ s now _ db hnd
      (List.Nodup.sublist (List.Sublist.map Msg.id (List.filter_sublist db.messages)) hnd)
      (fun q hq => (List.mem_filter.mp hq).1)

theorem string_sent_ne_queued : ¬ ("sent" : String) = "queued" := by decide

theorem string_failed_ne_queued : ¬ ("failed" : String) = "queued" := by decide

theorem find?_setPairing_self :
    ∀ (ps : List (String × String)) (code now : String),
      List.find? (fun p => p.1 == code) (setPairing ps code now) = some (code, now) := by
  intro ps code now
  induction ps with
  | nil => simp [setPairing, List.find?_cons]
  | cons p rest ih =>
    obtain ⟨c, t⟩ := p
    unfold setPairing
    by_cases h : c = code
    · rw [if_pos h]
      simp [List.find?_cons]
    · rw [if_neg h]
      simp [List.find?_cons, h, ih]

theorem find?_setPairing_ne :
    ∀ (ps : List (String × String)) (code2 now2 code1 : String), code2 ≠ code1 →
      List.find? (fun p => p.1 == code1) (setPairing ps code2 now2) =
        List.find? (fun p => p.1 == code1) ps := by
  intro ps code2 now2 code1 hne
  induction ps with
  | nil => simp [setPairing, List.find?_cons, hne]
  | cons p rest ih =>
    obtain ⟨c, t⟩ := p
    unfold setPairing
    by_cases h : c = code2
    · rw [if_pos h]
      subst h
      simp [List.find?_cons, hne]
    · rw [if_neg h]
      by_cases h1 : c = code1
      · simp [List.find?_cons, h1]
      · simp [List.find?_cons, h1, ih]

/-! Concrete sample data used by the witness theorems. -/

def msgA : Msg :=
  { id := "m1", toThreadId := "12345", text := "hello", senderName := none,
    createdAt := "t0", status := "queued", lastError := none,
    sentAt := none, attemptedAt := none }

def msgB : Msg :=
  { id := "m2", toThreadId := "777", text := "hi again", senderName := some "alice",
    createdAt := "t0", status := "sent", lastError := none,
    sentAt := some "t0s", attemptedAt := none }

def dbA : Db := ⟨[msgA], []⟩

def dbB : Db := ⟨[msgB, msgA], []⟩

def sessionUp : SessionModel := ⟨true, true, fun _ _ => DeliverOutcome.ok⟩

def sessionNoAuth : SessionModel := ⟨true, false, fun _ _ => DeliverOutcome.ok⟩

/-! The claims. -/

/-- Claim C1: for every dispatch cycle that does not abort at the
authentication check, every message that was queued at cycle start ends
the cycle sent (with `sentAt` set and `lastError` absent), or failed
(with `attemptedAt` and `lastError` set), or still queued — unchanged —
only when the cycle aborted because the session could not be brought up.
Stated positionally over one cycle run in isolation, on a reachable store
(distinct ids; queued records carry no leftover error). -/
theorem claim_c1 (s : SessionModel) (now : String) (db : Db)
    (hnd : (db.messages.map Msg.id).Nodup)
    (hqe : ∀ m ∈ db.messages, m.status = "queued" → m.lastError = none)
    (hauth : s.browserOk = true → s.loggedIn = true) :
    List.Forall₂
      (fun m m2 => m.status = "queued" →
        (m2.id = m.id ∧
          ((m2.status = "sent" ∧ m2.sentAt.isSome = true ∧ m2.lastError = none) ∨
           (m2.status = "failed" ∧ m2.attemptedAt.isSome = true ∧ m2.lastError.isSome = true)))
        ∨ (m2 = m ∧ s.browserOk = false))
      db.messages (processQueueOnce s now db).1.messages := by
  cases hb : s.browserOk with
  | false =>
    rw [cycle_noChange s now db (Or.inl hb)]
    exact List.forall₂_same.mpr (fun a _ _ => Or.inr ⟨rfl, rfl⟩)
  | true =>
    have hl := hauth hb
    refine forall₂_imp_mem (cycle_forall₂ s now db hnd hb hl) ?_
    intro a ha c hc hq
    left
    have haqids : a.id ∈ (db.messages.filter (fun m => m.status == "queued")).map Msg.id :=
      mem_qids_of_queued ha hq
    unfold cycleWrite at hc
    rw [if_pos haqids] at hc
    rcases hc with hc | ⟨e, hc⟩
    · subst hc
      exact ⟨rfl, Or.inl ⟨rfl, rfl, hqe a ha hq⟩⟩
    · subst hc
      exact ⟨rfl, Or.inr ⟨rfl, rfl, rfl⟩⟩

theorem claim_c1_witness :
    List.Forall₂
      (fun m m2 => m.status = "queued" →
        (m2.id = m.id ∧
          ((m2.status = "sent" ∧ m2.sentAt.isSome = true ∧ m2.lastError = none) ∨
           (m2.status = "failed" ∧ m2.attemptedAt.isSome = true ∧ m2.lastError.isSome = true)))
        ∨ (m2 = m ∧ sessionUp.browserOk = false))
      dbA.messages (processQueueOnce sessionUp "t1" dbA).1.messages :=
  claim_c1 sessionUp "t1" dbA (by decide) (by decide) (fun _ => rfl)

/-- Claim C2: when the logged-in probe reports not-authenticated the
cycle aborts with no delivery attempted (the attempted-id list is empty),
no status change and no error recorded — the store image is returned
exactly as read. -/
theorem claim_c2 (s : SessionModel) (now : String) (db : Db) (h : s.loggedIn = false) :
    processQueueOnce s now db = (db, []) :=
  cycle_noChange s now db (Or.inr h)

theorem claim_c2_witness : processQueueOnce sessionNoAuth "t1" dbA = (dbA, []) :=
  claim_c2 sessionNoAuth "t1" dbA rfl

/-- Claim C3: `submit` rejects synchronously (never touching the store —
the error branch carries no new state) exactly when `toThreadId` or
`text` is empty; every valid submission appends a record with status
queued, `sentAt` and `attemptedAt` absent, and echoes the record id. -/
theorem claim_c3 (db : Db) (id toThreadId text : String) (senderName : Option String)
    (now : String) :
    ((∃ e, submit db id toThreadId text senderName now = Except.error e) ↔
      (toThreadId = "" ∨ text = ""))
    ∧ (¬ toThreadId = "" → ¬ text = "" →
        ∃ item : Msg,
          submit db id toThreadId text senderName now =
            Except.ok ({ db with messages := db.messages ++ [item] }, item.id) ∧
          item.id = id ∧ item.status = "queued" ∧
          item.sentAt = none ∧ item.attemptedAt = none) := by
  by_cases hc : (toThreadId = "" ∨ text = "")
  · constructor
    · exact ⟨fun _ => hc,
        fun _ => ⟨"toThreadId and text required", by unfold submit; rw [if_pos hc]⟩⟩
    · intro h1 h2
      rcases hc with hc | hc
      · exact absurd hc h1
      · exact absurd hc h2
  · constructor
    · constructor
      · rintro ⟨e, he⟩
        unfold submit at he
        rw [if_neg hc] at he
        cases he
      · intro h
        exact absurd h hc
    · intro _ _
      refine ⟨mkQueuedMsg id toThreadId text senderName now, ?_, rfl, rfl, rfl, rfl⟩
      unfold submit
      rw [if_neg hc]

theorem claim_c3_witness :
    ∃ item : Msg,
      submit emptyDb "u1" "12345" "hello" none "t0" =
        Except.ok ({ emptyDb with messages := emptyDb.messages ++ [item] }, item.id) ∧
      item.id = "u1" ∧ item.status = "queued" ∧
      item.sentAt = none ∧ item.attemptedAt = none :=
  (claim_c3 emptyDb "u1" "12345" "hello" none "t0").2 (by decide) (by decide)

/-- Claim C4: the timestamp invariant — queued records have neither
`sentAt` nor `attemptedAt`; once the status has left queued exactly one
of the two is populated — is preserved by `submit`, by a dispatch cycle
(on a reachable store of distinct ids) and by the clear operation. -/
theorem claim_c4 :
    (∀ (db : Db) (id toThreadId text : String) (senderName : Option String) (now : String)
        (db2 : Db) (rid : String),
        (∀ m ∈ db.messages, tsInv m) →
        submit db id toThreadId text senderName now = Except.ok (db2, rid) →
        ∀ m ∈ db2.messages, tsInv m)
    ∧ (∀ (s : SessionModel) (now : String) (db : Db),
        (db.messages.map Msg.id).Nodup →
        (∀ m ∈ db.messages, tsInv m) →
        ∀ m ∈ (processQueueOnce s now db).1.messages, tsInv m)
    ∧ (∀ db : Db, ∀ m ∈ (clearQueue db).messages, tsInv m) := by
  refine ⟨?_, ?_, ?_⟩
  · intro db id toThreadId text senderName now db2 rid hinv hok m hm
    unfold submit at hok
    by_cases hc : (toThreadId = "" ∨ text = "")
    · rw [if_pos hc] at hok
      cases hok
    · rw [if_neg hc] at hok
      injection hok with h3
      have h4 : ({ db with messages :=
          db.messages ++ [mkQueuedMsg id toThreadId text senderName now] } : Db) = db2 :=
        congrArg Prod.fst h3
      rw [← h4] at hm
      rcases List.mem_append.mp hm with hm | hm
      · exact hinv m hm
      · rw [List.mem_singleton.mp hm]
        unfold tsInv
        rw [if_pos (show (mkQueuedMsg id toThreadId text senderName now).status = "queued"
          from rfl)]
        exact ⟨rfl, rfl⟩
  · intro s now db hnd hinv m hm
    cases hb : s.browserOk with
    | false =>
      rw [cycle_noChange s now db (Or.inl hb)] at hm
      exact hinv m hm
    | true =>
      cases hl : s.loggedIn with
      | false =>
        rw [cycle_noChange s now db (Or.inr hl)] at hm
        exact hinv m hm
      | true =>
        obtain ⟨a, ha, hc⟩ := forall₂_mem_right (cycle_forall₂ s now db hnd hb hl) hm
        unfold cycleWrite at hc
        by_cases haq : a.id ∈ (db.messages.filter (fun x => x.status == "queued")).map Msg.id
        · rw [if_pos haq] at hc
          have hqa : a.status = "queued" := status_of_mem_qids hnd ha haq
          have hinva := hinv a ha
          unfold tsInv at hinva
          rw [if_pos hqa] at hinva
          rcases hc with hc | ⟨e, hc⟩
          · subst hc
            unfold tsInv
            rw [if_neg (show ¬ (markSent now a).status = "queued" from string_sent_ne_queued)]
            exact Or.inl ⟨rfl, hinva.2⟩
          · subst hc
            unfold tsInv
            rw [if_neg (show ¬ (markFailed e now a).status = "queued"
              from string_failed_ne_queued)]
            exact Or.inr ⟨hinva.1, rfl⟩
        · rw [if_neg haq] at hc
          rw [hc]
          exact hinv a ha
  · intro db m hm
    simp [clearQueue] at hm

theorem claim_c4_witness :
    tsInv { msgA with status := "sent", sentAt := some "t1" } :=
  claim_c4.2.1 sessionUp "t1" dbA (by decide) (by decide)
    { msgA with status := "sent", sentAt := some "t1" } (by decide)

/-- Claim C5: a dispatch cycle never alters a record whose status is not
queued (in particular `sent` and `failed` are terminal): positionally,
every non-queued record of the store is returned unchanged. -/
theorem claim_c5 (s : SessionModel) (now : String) (db : Db)
    (hnd : (db.messages.map Msg.id).Nodup) :
    List.Forall₂ (fun m m2 => m.status ≠ "queued" → m2 = m)
      db.messages (processQueueOnce s now db).1.messages := by
  cases hb : s.browserOk with
  | false =>
    rw [cycle_noChange s now db (Or.inl hb)]
    exact List.forall₂_same.mpr (fun a _ _ => rfl)
  | true =>
    cases hl : s.loggedIn with
    | false =>
      rw [cycle_noChange s now db (Or.inr hl)]
      exact List.forall₂_same.mpr (fun a _ _ => rfl)
    | true =>
      refine forall₂_imp_mem (cycle_forall₂ s now db hnd hb hl) ?_
      intro a ha c hc hnq
      have hnot : a.id ∉ (db.messages.filter (fun m => m.status == "queued")).map Msg.id :=
        fun hmem => hnq (status_of_mem_qids hnd ha hmem)
      unfold cycleWrite at hc
      rw [if_neg hnot] at hc
      exact hc

theorem claim_c5_witness :
    List.Forall₂ (fun m m2 => m.status ≠ "queued" → m2 = m)
      dbB.messages (processQueueOnce sessionUp "t1" dbB).1.messages :=
  claim_c5 sessionUp "t1" dbB (by decide)

/-- Claim C6: clearing the queue removes every message record, whatever
its status, and leaves the pairing collection unchanged. -/
theorem claim_c6 (db : Db) :
    (clearQueue db).messages = [] ∧ (clearQueue db).pairings = db.pairings :=
  ⟨rfl, rfl⟩

/-- Claim C7: when the persisted image is absent or unreadable (corrupt
content that does not parse), the load operation returns the empty
default state instead of failing. -/
theorem claim_c7 (r : ReadOutcome)
    (h : r = ReadOutcome.absent ∨ r = ReadOutcome.unreadable) :
    readDb r = emptyDb := by
  rcases h with h | h <;> subst h <;> rfl

theorem claim_c7_witness : readDb ReadOutcome.absent = emptyDb :=
  claim_c7 ReadOutcome.absent (Or.inl rfl)

/-- Claim C8 counterexample: pairing records are not write-once under the
code as written.  When a later `POST /api/pair` draws the same code as an
earlier one (possible, since codes range over at most 36^6 values),
`db.pairings[code] = \x7b createdAt \x7d` overwrites the earlier record:
after two invocations that both drew the code below, the stored
`createdAt` is the second timestamp, not the first. -/
theorem claim_c8_counterexample :
    lookupPairing (addPairing emptyDb "K3J9QZ" "2026-01-01T00:00:00.000Z") "K3J9QZ" =
        some "2026-01-01T00:00:00.000Z" ∧
    lookupPairing
        (addPairing (addPairing emptyDb "K3J9QZ" "2026-01-01T00:00:00.000Z")
          "K3J9QZ" "2026-02-02T00:00:00.000Z") "K3J9QZ" =
      some "2026-02-02T00:00:00.000Z" ∧
    ("2026-02-02T00:00:00.000Z" : String) ≠ "2026-01-01T00:00:00.000Z" := by
  refine ⟨by decide, by decide, by decide⟩

/-- Claim C8 as amended: a later `generatePairingCode` invocation whose
code differs from an earlier one's leaves the earlier record — in
particular its `createdAt` — intact, and no pairing record is ever
removed (they accumulate); only the improbable draw of an already-used
code overwrites that record's `createdAt`. -/
theorem claim_c8_amended :
    (∀ (db : Db) (c1 t1 c2 t2 : String), c2 ≠ c1 →
        lookupPairing (addPairing (addPairing db c1 t1) c2 t2) c1 = some t1)
    ∧ (∀ (db : Db) (code now c : String),
        (lookupPairing db c).isSome = true →
        (lookupPairing (addPairing db code now) c).isSome = true) := by
  constructor
  · intro db c1 t1 c2 t2 hne
    unfold lookupPairing addPairing
    rw [show (setPairing (setPairing db.pairings c1 t1) c2 t2 : List (String × String)) =
      setPairing ({ db with pairings := setPairing db.pairings c1 t1 } : Db).pairings c2 t2
      from rfl]
    rw [find?_setPairing_ne _ c2 t2 c1 hne]
    rw [find?_setPairing_self]
    rfl
  · intro db code now c hs
    by_cases h : code = c
    · subst h
      unfold lookupPairing addPairing
      rw [find?_setPairing_self]
      rfl
    · unfold lookupPairing at hs ⊢
      unfold addPairing
      rw [find?_setPairing_ne _ code now c h]
      exact hs

theorem claim_c8_amended_witness :
    lookupPairing (addPairing (addPairing emptyDb "AAA111" "t1") "BBB222" "t2") "AAA111" =
      some "t1" :=
  claim_c8_amended.1 emptyDb "AAA111" "t1" "BBB222" "t2" (by decide)

/-- Claim C9: each per-message write-back re-reads the store; when the
re-read state holds no record with the message's id (for example after a
mid-cycle clear), both the success and the failure write-back perform no
write at all (`false`) and leave the state unchanged. -/
theorem claim_c9 (db2 : Db) (id errText now : String)
    (h : ∀ m ∈ db2.messages, m.id ≠ id) :
    writeBackSent db2 id now = (db2, false) ∧
    writeBackFailed db2 id errText now = (db2, false) := by
  have hf : findMsg db2.messages id = none := by
    unfold findMsg
    rw [List.find?_eq_none]
    intro m hm
    simpa using h m hm
  constructor
  · unfold writeBackSent
    rw [hf]
  · unfold writeBackFailed
    rw [hf]

theorem claim_c9_witness :
    writeBackSent dbA "nope" "t9" = (dbA, false) ∧
    writeBackFailed dbA "nope" "boom" "t9" = (dbA, false) :=
  claim_c9 dbA "nope" "boom" "t9" (by decide)

theorem base36_char_shape :
    ∀ d : Fin 36,
      ('0' ≤ Char.toUpper (base36Digit d) ∧ Char.toUpper (base36Digit d) ≤ '9') ∨
      ('A' ≤ Char.toUpper (base36Digit d) ∧ Char.toUpper (base36Digit d) ≤ 'Z') := by decide

/-- Claim C10: every generated pairing code consists solely of digits and
uppercase letters (uppercase base-36), has length at most 6, and length
exactly 6 is not guaranteed: the expansion of 0 yields the empty code and
a one-digit expansion yields a one-character code. -/
theorem claim_c10 :
    (∀ digits : List (Fin 36),
        (pairingCodeOf digits).length ≤ 6 ∧
        ∀ c ∈ (pairingCodeOf digits).toList,
          ('0' ≤ c ∧ c ≤ '9') ∨ ('A' ≤ c ∧ c ≤ 'Z'))
    ∧ pairingCodeOf [] = ""
    ∧ (pairingCodeOf [(1 : Fin 36)]).length = 1 := by
  refine ⟨?_, by decide, by decide⟩
  intro digits
  constructor
  · show ((jsSlice 2 8 (jsToString36Chars digits)).map Char.toUpper).length ≤ 6
    rw [List.length_map]
    exact List.length_take_le _ _
  · intro c hc
    have hc2 : c ∈ (jsSlice 2 8 (jsToString36Chars digits)).map Char.toUpper := hc
    obtain ⟨x, hx, hxc⟩ := List.mem_map.mp hc2
    have hx2 : x ∈ (jsToString36Chars digits).drop 2 := List.mem_of_mem_take hx
    cases digits with
    | nil => simp [jsToString36Chars] at hx2
    | cons d ds =>
      have hx3 : x ∈ (d :: ds).map base36Digit := by
        simpa [jsToString36Chars] using hx2
      obtain ⟨d0, _, hd0⟩ := List.mem_map.mp hx3
      rw [← hxc, ← hd0]
      exact base36_char_shape d0

theorem claim_c10_witness :
    (pairingCodeOf [(35 : Fin 36), 0, 1]).length ≤ 6 ∧
    (('0' ≤ 'Z' ∧ 'Z' ≤ '9') ∨ ('A' ≤ 'Z' ∧ 'Z' ≤ 'Z')) :=
  ⟨(claim_c10.1 [(35 : Fin 36), 0, 1]).1,
   (claim_c10.1 [(35 : Fin 36), 0, 1]).2 'Z' (by decide)⟩
